import Mathlib

/-
  Verification of typeorm-simple-history (src/index.ts).

  The program records field-level change history for updated records.
  We shallowly embed its runtime values as a JSON-like inductive type,
  the structural diff of the deep-object-diff dependency, the
  beforeUpdate subscriber hook, the registration table, the repository
  lookup, and the hydrate utility, and prove the specification claims
  about these definitions.
-/

set_option maxHeartbeats 1000000

namespace TypeormSimpleHistory

mutual
/-- JSON-like runtime values of the embedded program. `undef` stands for
the JavaScript undefined value (used by deep-object-diff as the marker
for deleted keys); `obj` is a plain object given by its ordered field
list. -/
inductive Val where
  | undef : Val
  | null : Val
  | bool : Bool → Val
  | num : Int → Val
  | str : String → Val
  | obj : Fields → Val
deriving DecidableEq

/-- Ordered field list of a plain JavaScript object. -/
inductive Fields where
  | nil : Fields
  | cons : String → Val → Fields → Fields
deriving DecidableEq
end

/-- Build a field list from an ordinary list of pairs (notation helper
for concrete objects). -/
def Fields.ofList : List (String × Val) → Fields
  | [] => .nil
  | (k, v) :: rest => .cons k v (Fields.ofList rest)

/-- First-match lookup of a key (JavaScript property access on a plain
object, which can hold each key at most once). -/
def Fields.lookup (k : String) : Fields → Option Val
  | .nil => none
  | .cons k1 v rest => if k1 = k then some v else Fields.lookup k rest

/-- Concatenation of field lists. -/
def Fields.append : Fields → Fields → Fields
  | .nil, r => r
  | .cons k v rest, r => .cons k v (Fields.append rest r)

/-- The keys of a field list, in order. -/
def Fields.keys : Fields → List String
  | .nil => []
  | .cons k _ rest => k :: Fields.keys rest

/-- Whether a field list holds a given key. -/
def Fields.hasKey (k : String) (l : Fields) : Bool :=
  (l.lookup k).isSome

/-- The isObject predicate of the deep-object-diff utils. -/
def isObject : Val → Bool
  | .obj _ => true
  | _ => false

/-- The isEmptyObject predicate of the deep-object-diff utils: an
object with no keys. -/
def isEmptyObject : Val → Bool
  | .obj .nil => true
  | _ => false

/-- The deleted-values pass of deep-object-diff: every key of lhs that
is missing from rhs is mapped to undefined. -/
def deletedFields (rf : Fields) : Fields → Fields
  | .nil => .nil
  | .cons k _ rest =>
    if (rf.lookup k).isNone then .cons k .undef (deletedFields rf rest)
    else deletedFields rf rest

mutual
/-- The diff function of the deep-object-diff npm package (the
imported deepDiff of src/index.ts): for two objects it returns an
object listing the keys of lhs missing from rhs (mapped to undefined)
followed by the changed rhs keys; a comparison involving a non-object
returns rhs. The JavaScript reference-equality fast path is modelled
as structural equality, which is observationally equivalent. -/
def deepDiff (lhs rhs : Val) : Val :=
  if lhs = rhs then .obj .nil
  else
    match lhs, rhs with
    | .obj lf, .obj rf => .obj ((deletedFields rf lf).append (updatedFields lf rf))
    | _, _ => rhs

/-- The rhs-keys pass of deep-object-diff: keys added in rhs are taken
as is, shared keys hold the recursive difference of their values, and
a shared key whose recursive difference is an empty object is dropped
unless the lhs value was an empty object while the rhs value is a
non-empty object. -/
def updatedFields (lf : Fields) (rf : Fields) : Fields :=
  match rf with
  | .nil => .nil
  | .cons k rv rest =>
    let tail := updatedFields lf rest
    match lf.lookup k with
    | none => .cons k rv tail
    | some lv =>
      let d := deepDiff lv rv
      if isEmptyObject d && (isEmptyObject lv || !isEmptyObject rv) then tail
      else .cons k d tail
end

/-- The isEmptyObj helper of src/index.ts: true when the argument is
not a (truthy) object or is an object with no keys. -/
def isEmptyObj : Val → Bool
  | .obj .nil => true
  | .obj (.cons _ _ _) => false
  | _ => true

/-- Property access v.k on an arbitrary value (none when the value is
not an object or lacks the key). -/
def Val.getProp (k : String) : Val → Option Val
  | .obj l => l.lookup k
  | _ => none

def idKey : String := "id"

def historyDetailsKey : String := "historyDetails"

def originIdKey : String := "originId"

def createdAtKey : String := "createdAt"

/-- The TypeORM UpdateEvent as consumed by the subscriber: the incoming
entity and the database entity may each be absent, and the query runner
carries the caller-supplied data object. -/
structure UpdateEvent where
  entity : Option Val
  databaseEntity : Option Val
  queryRunnerData : Fields
deriving DecidableEq

/-- One persisted History Entry as produced by repository.create and
repository.save inside beforeUpdate: its origin column, its diff
column, and its historyDetails column (id and createdAt are assigned
by the persistence layer and are not part of the write). -/
structure HistoryWrite where
  origin : Option Val
  diff : Val
  historyDetails : Option Val
deriving DecidableEq

/-- The beforeUpdate hook of MyEntitySubscriber (src/index.ts): default
the incoming and previous states to empty objects, read the caller
annotation from the query runner data, compute the structural diff,
and, only when the diff is a non-empty object, persist exactly one
history row. The returned list is the list of performed writes. -/
def beforeUpdate (event : UpdateEvent) : List HistoryWrite :=
  let newEntity := event.entity.getD (.obj .nil)
  let oldEntity := event.databaseEntity.getD (.obj .nil)
  let historyDetails := event.queryRunnerData.lookup historyDetailsKey
  let d := deepDiff newEntity oldEntity
  if isEmptyObj d then []
  else [{ origin := oldEntity.getProp idKey, diff := d, historyDetails := historyDetails }]

/-- An entity class, identified (as in the source) by its constructor
name. -/
structure EntityClass where
  name : String
deriving DecidableEq

/-- The generated history entity class: its table name
(lower-cased entity name followed by _history) and the target entity
name of its ManyToOne origin column. -/
structure HistoryEntityDesc where
  tableName : String
  originTarget : String
deriving DecidableEq

/-- The generated subscriber class, listening to the tracked entity
class. -/
structure SubscriberDesc where
  listensTo : EntityClass
deriving DecidableEq

/-- One registration-table entry of HistoryModule. -/
structure Entry where
  name : String
  entity : HistoryEntityDesc
  subscriber : SubscriberDesc
deriving DecidableEq

def historySuffix : String := "_history"

/-- Character-wise lower-casing of a string, the model of the
toLocaleLowerCase calls of the source. -/
def lowerString (s : String) : String :=
  ⟨s.data.map Char.toLower⟩

/-- createHistoryEntityAndSubscriber of src/index.ts: lower-case the
class name, derive the history table name, and build the history
entity and subscriber descriptors. -/
def createHistoryEntityAndSubscriber (entityClass : EntityClass) : Entry :=
  let entityName := lowerString entityClass.name
  let historyEntityName := entityName ++ historySuffix
  { name := entityName
  , entity := { tableName := historyEntityName, originTarget := entityClass.name }
  , subscriber := { listensTo := entityClass } }

/-- getEntities of HistoryModule over a registry state. -/
def getEntities (entries : List Entry) : List HistoryEntityDesc :=
  entries.map (fun e => e.entity)

/-- getSubscribers of HistoryModule over a registry state. -/
def getSubscribers (entries : List Entry) : List SubscriberDesc :=
  entries.map (fun e => e.subscriber)

/-- trackHistory of HistoryModule: build the entry for the class and
push it onto the registry. -/
def trackHistory (myEntity : EntityClass) (entries : List Entry) : List Entry :=
  entries ++ [createHistoryEntityAndSubscriber myEntity]

/-- The TrackHistory decorator of HistoryModule applied to a target
class: it performs the same registration and returns its target. -/
def TrackHistory (target : EntityClass) (entries : List Entry) : List Entry × EntityClass :=
  (entries ++ [createHistoryEntityAndSubscriber target], target)

/-- The argument of getHistoryRepository: a type name or a type
reference. -/
inductive EntityRef where
  | byName : String → EntityRef
  | byClass : EntityClass → EntityRef
deriving DecidableEq

/-- The name string getHistoryRepository extracts from its argument
before lower-casing (the class name for a function argument, the
string itself otherwise). -/
def EntityRef.refName : EntityRef → String
  | .byName s => s
  | .byClass c => c.name

def unregisteredMsg : String := "Provided entity is not registered for history tracking"

instance : DecidableEq (Except String HistoryEntityDesc) := fun a b =>
  match a, b with
  | .ok x, .ok y =>
    if h : x = y then .isTrue (by rw [h]) else .isFalse (by simp [h])
  | .error x, .error y =>
    if h : x = y then .isTrue (by rw [h]) else .isFalse (by simp [h])
  | .ok _, .error _ => .isFalse (by simp)
  | .error _, .ok _ => .isFalse (by simp)

/-- getHistoryRepository of HistoryModule: lower-case the requested
name, find the first registry entry with that stored name, and obtain
the repository for its history entity (the repository handle returned
by config.getRepository is determined by the entity passed to it, so
it is modelled by that entity descriptor); throw the unregistered-type
error when no entry matches. -/
def getHistoryRepository (entries : List Entry) (entityClass : EntityRef) :
    Except String HistoryEntityDesc :=
  let entityName := lowerString entityClass.refName
  match (entries.find? (fun e => e.name == entityName)).map (fun e => e.entity) with
  | none => .error unregisteredMsg
  | some ent => .ok ent

/-- Replacement of the value at every occurrence of a key, keeping the
position (JavaScript assignment to an existing property; a JavaScript
object holds each key once, so this agrees with first-occurrence
replacement on well-formed objects). -/
def Fields.replaceKey (k : String) (v : Val) : Fields → Fields
  | .nil => .nil
  | .cons k1 v1 rest =>
    if k1 = k then .cons k1 v (Fields.replaceKey k v rest)
    else .cons k1 v1 (Fields.replaceKey k v rest)

/-- JavaScript property write on an object literal copy: overwrite in
place when the key exists, append otherwise. -/
def setKey (l : Fields) (k : String) (v : Val) : Fields :=
  if l.hasKey k then l.replaceKey k v else l.append (.cons k v .nil)

/-- JavaScript object spread of upd onto base: assign the fields of
upd, in order, onto a copy of base. -/
def spreadFields (base : Fields) : Fields → Fields
  | .nil => base
  | .cons k v rest => spreadFields (setKey base k v) rest

/-- One stored History Entry as read back for hydrate: the row id, the
stored diff object, the stored historyDetails value, and the creation
timestamp (an opaque value here). -/
structure HistoryEntry where
  id : Val
  diff : Fields
  historyDetails : Val
  createdAt : Val
deriving DecidableEq

/-- The body of the map callback of hydrate (src/index.ts): the next
pivot is the object literal built by spreading the previous pivot,
then the entry diff, then writing the id, historyDetails and createdAt
fields of the entry itself. -/
def hydrateStep (pivot : Fields) (e : HistoryEntry) : Fields :=
  setKey (setKey (setKey (spreadFields pivot e.diff) idKey e.id)
    historyDetailsKey e.historyDetails) createdAtKey e.createdAt

/-- The map of hydrate with its mutable pivot made explicit: each
entry produces the next pivot, which is emitted and carried forward. -/
def hydrateGo (pivot : Fields) : List HistoryEntry → List Fields
  | [] => []
  | e :: rest =>
    let p := hydrateStep pivot e
    p :: hydrateGo p rest

/-- hydrate of HistoryModule (src/index.ts): the initial pivot is
Object.assign applied to a fresh object holding originId mapped to
current.id and then to current, and the history list is mapped with
the stateful step above. -/
def hydrate (current : Fields) (history : List HistoryEntry) : List Fields :=
  let pivot0 :=
    spreadFields (.cons originIdKey ((current.lookup idKey).getD .undef) .nil) current
  hydrateGo pivot0 history

/-- A field list is flat when none of its values is itself an object
(so structural value equality is plain equality). -/
def Fields.Flat : Fields → Bool
  | .nil => true
  | .cons _ v rest => !isObject v && Fields.Flat rest

/-- Field list of an object value (empty for non-objects). -/
def Val.fields : Val → Fields
  | .obj l => l
  | _ => .nil

/-! ### Concrete inputs used by counterexamples and witnesses -/

def aKey : String := "a"

def bKey : String := "b"

/-- The incoming state of the spec example: the object with a mapped to
1 and b mapped to 3. -/
def exIncomingFields : Fields :=
  .cons aKey (.num 1) (.cons bKey (.num 3) .nil)

/-- The previous state of the spec example: the object with a mapped to
1 and b mapped to 2. -/
def exPreviousFields : Fields :=
  .cons aKey (.num 1) (.cons bKey (.num 2) .nil)

/-- The update event of the spec diff example. -/
def exEventC1 : UpdateEvent :=
  { entity := some (.obj exIncomingFields)
  , databaseEntity := some (.obj exPreviousFields)
  , queryRunnerData := .nil }

/-- An update event whose incoming state equals its previous state. -/
def exEventEq : UpdateEvent :=
  { entity := some (.obj exPreviousFields)
  , databaseEntity := some (.obj exPreviousFields)
  , queryRunnerData := .nil }

/-- A previous state carrying an id field. -/
def exPrevIdFields : Fields :=
  .cons idKey (.num 1) (.cons aKey (.num 2) .nil)

/-- An incoming state changing the a field of exPrevIdFields. -/
def exIncIdFields : Fields :=
  .cons idKey (.num 1) (.cons aKey (.num 5) .nil)

/-- Caller-supplied operation data carrying a historyDetails value. -/
def exData : Fields :=
  .cons historyDetailsKey .null .nil

/-- An update event with a changed field, an id on the previous state
and a caller annotation. -/
def exEventC4 : UpdateEvent :=
  { entity := some (.obj exIncIdFields)
  , databaseEntity := some (.obj exPrevIdFields)
  , queryRunnerData := exData }

/-- An update event whose incoming entity is absent. -/
def exEventC7 : UpdateEvent :=
  { entity := none
  , databaseEntity := some (.obj exPrevIdFields)
  , queryRunnerData := exData }

/-- A current record for hydrate examples. -/
def exCurrent : Fields :=
  .cons idKey (.num 1) (.cons aKey (.num 2) .nil)

/-- A current record that owns an originId field of its own. -/
def exShadowCurrent : Fields :=
  .cons idKey (.num 1) (.cons originIdKey (.num 99) .nil)

/-- A first stored history entry. -/
def exEntry1 : HistoryEntry :=
  { id := .num 1, diff := .cons aKey (.num 9) .nil
  , historyDetails := .null, createdAt := .num 100 }

/-- A second stored history entry. -/
def exEntry2 : HistoryEntry :=
  { id := .num 2, diff := .cons bKey (.num 8) .nil
  , historyDetails := .null, createdAt := .num 200 }

/-- A history entry whose diff itself holds id, historyDetails and
createdAt keys, to exercise the override precedence. -/
def exEntry3 : HistoryEntry :=
  { id := .num 2
  , diff := .cons idKey (.num 77)
      (.cons historyDetailsKey (.str aKey) (.cons createdAtKey (.num 888) .nil))
  , historyDetails := .null, createdAt := .num 300 }

/-- The first element produced by hydrate on exCurrent and exEntry3. -/
def exHydrateOut : Fields :=
  List.headD (hydrate exCurrent [exEntry3]) .nil

def userName : String := "User"

def upperUserName : String := "USER"

def mixedUserName : String := "uSeR"

def ghostName : String := "Ghost"

/-- A tracked entity class named User. -/
def userClass : EntityClass := { name := userName }

/-- A distinct entity class named USER, never registered below. -/
def upperUserClass : EntityClass := { name := upperUserName }

/-- The registry obtained by registering only the User class. -/
def exRegistry : List Entry := trackHistory userClass []

/-! ### Supporting lemmas -/

/-- Single-motive structural induction over field lists. -/
theorem Fields.inductionOn (motive : Fields → Prop) (hnil : motive .nil)
    (hcons : ∀ k v rest, motive rest → motive (.cons k v rest)) : ∀ l, motive l
  | .nil => hnil
  | .cons k v rest => hcons k v rest (Fields.inductionOn motive hnil hcons rest)

theorem lookup_append_of_some {k : String} {v : Val} :
    ∀ a : Fields, ∀ b : Fields, a.lookup k = some v → (a.append b).lookup k = some v := by
  intro a
  induction a using Fields.inductionOn with
  | hnil => intro b h; simp [Fields.lookup] at h
  | hcons k1 v1 rest ih =>
    intro b h
    simp only [Fields.lookup, Fields.append] at h ⊢
    by_cases hk : k1 = k
    · simpa [hk] using h
    · simp only [if_neg hk] at h ⊢
      exact ih b h

theorem lookup_append_of_none {k : String} :
    ∀ a : Fields, ∀ b : Fields, a.lookup k = none → (a.append b).lookup k = b.lookup k := by
  intro a
  induction a using Fields.inductionOn with
  | hnil => intro b _; rfl
  | hcons k1 v1 rest ih =>
    intro b h
    simp only [Fields.lookup, Fields.append] at h ⊢
    by_cases hk : k1 = k
    · simp [hk] at h
    · simp only [if_neg hk] at h ⊢
      exact ih b h

theorem Fields.append_nil : ∀ l : Fields, l.append .nil = l := by
  intro l
  induction l using Fields.inductionOn with
  | hnil => rfl
  | hcons k v rest ih => simp only [Fields.append, ih]

theorem Fields.append_assoc : ∀ a b c : Fields,
    (a.append b).append c = a.append (b.append c) := by
  intro a
  induction a using Fields.inductionOn with
  | hnil => intro b c; rfl
  | hcons k v rest ih => intro b c; simp only [Fields.append, ih]

theorem lookup_eq_none_iff_not_mem_keys {k : String} :
    ∀ l : Fields, l.lookup k = none ↔ k ∉ l.keys := by
  intro l
  induction l using Fields.inductionOn with
  | hnil => simp [Fields.lookup, Fields.keys]
  | hcons k1 v rest ih =>
    simp only [Fields.lookup, Fields.keys, List.mem_cons]
    by_cases hk : k1 = k
    · simp [hk]
    · simp only [if_neg hk, ih]
      constructor
      · intro h hc
        rcases hc with hc | hc
        · exact hk hc.symm
        · exact h hc
      · intro h hc
        exact h (Or.inr hc)

theorem Flat_lookup_not_obj :
    ∀ l : Fields, l.Flat = true → ∀ {k : String} {v : Val},
      l.lookup k = some v → isObject v = false := by
  intro l
  induction l using Fields.inductionOn with
  | hnil => intro _ k v h; simp [Fields.lookup] at h
  | hcons k1 v1 rest ih =>
    intro hf k v h
    simp only [Fields.Flat, Bool.and_eq_true, Bool.not_eq_true'] at hf
    simp only [Fields.lookup] at h
    split at h
    · cases h
      exact hf.1
    · exact ih hf.2 h

theorem deepDiff_of_not_obj {lv rv : Val} (h : isObject lv = false) :
    deepDiff lv rv = if lv = rv then .obj .nil else rv := by
  rw [deepDiff.eq_def]
  split
  · rfl
  · cases lv <;> try (cases rv <;> rfl)
    simp [isObject] at h

theorem lookup_deletedFields (rf : Fields) (k : String) :
    ∀ lf : Fields,
      (deletedFields rf lf).lookup k =
        if (lf.lookup k).isSome && (rf.lookup k).isNone then some Val.undef else none := by
  intro lf
  induction lf using Fields.inductionOn with
  | hnil => simp [deletedFields, Fields.lookup]
  | hcons k1 v1 rest ih =>
    rw [deletedFields]
    by_cases hk : k1 = k
    · subst hk
      by_cases hr : (rf.lookup k1).isNone
      · simp [hr, Fields.lookup]
      · rw [if_neg hr, ih]
        have hfalse : (rf.lookup k1).isNone = false := by
          revert hr
          cases (rf.lookup k1).isNone <;> simp
        simp [Fields.lookup, hfalse]
    · by_cases hr : (rf.lookup k1).isNone
      · simp only [if_pos hr, Fields.lookup, if_neg hk, ih]
      · simp only [if_neg hr, ih, Fields.lookup, if_neg hk]

theorem updatedFields_nil_left : ∀ rf : Fields, updatedFields .nil rf = rf := by
  intro rf
  induction rf using Fields.inductionOn with
  | hnil => rw [updatedFields]
  | hcons k v rest ih => rw [updatedFields]; simp [Fields.lookup, ih]

theorem lookup_updatedFields_flat {lf : Fields} (hlf : lf.Flat = true) :
    ∀ rf : Fields, rf.Flat = true → rf.keys.Nodup → ∀ k : String,
      (updatedFields lf rf).lookup k =
        match rf.lookup k with
        | none => none
        | some rv =>
          match lf.lookup k with
          | none => some rv
          | some lv => if lv = rv then none else some rv := by
  intro rf
  induction rf using Fields.inductionOn with
  | hnil =>
    intro _ _ k
    simp [updatedFields, Fields.lookup]
  | hcons k1 rv rest ih =>
    intro hflat hnd k
    have hflat1 : isObject rv = false := by
      simp only [Fields.Flat, Bool.and_eq_true, Bool.not_eq_true'] at hflat
      exact hflat.1
    have hflatr : rest.Flat = true := by
      simp only [Fields.Flat, Bool.and_eq_true] at hflat
      exact hflat.2
    have hndr : rest.keys.Nodup := by
      simp only [Fields.keys, List.nodup_cons] at hnd
      exact hnd.2
    have hk1r : rest.lookup k1 = none := by
      rw [lookup_eq_none_iff_not_mem_keys]
      simp only [Fields.keys, List.nodup_cons] at hnd
      exact hnd.1
    rw [updatedFields]
    by_cases hk : k1 = k
    · subst hk
      cases hlv : lf.lookup k1 with
      | none =>
        simp [Fields.lookup, hlv]
      | some lv =>
        have hlvflat : isObject lv = false := Flat_lookup_not_obj lf hlf hlv
        simp only [deepDiff_of_not_obj hlvflat]
        by_cases heq : lv = rv
        · subst heq
          have hc : (isEmptyObject (Val.obj .nil)
              && (isEmptyObject lv || !isEmptyObject lv)) = true := by
            cases lv with
            | obj l => exact absurd hlvflat (by simp [isObject])
            | undef => rfl
            | null => rfl
            | bool b => rfl
            | num n => rfl
            | str s => rfl
          simp only [eq_self_iff_true, if_true]
          rw [if_pos hc, ih hflatr hndr k1, hk1r]
          simp [Fields.lookup, hlv]
        · have hc : (isEmptyObject rv && (isEmptyObject lv || !isEmptyObject rv)) = false := by
            cases rv with
            | obj l => exact absurd hflat1 (by simp [isObject])
            | undef => rfl
            | null => rfl
            | bool b => rfl
            | num n => rfl
            | str s => rfl
          rw [if_neg heq, if_neg (by rw [hc]; simp)]
          simp [Fields.lookup, hlv, heq]
    · cases hlv : lf.lookup k1 with
      | none =>
        simp only [Fields.lookup, if_neg hk]
        rw [ih hflatr hndr k]
      | some lv =>
        have hlvflat : isObject lv = false := Flat_lookup_not_obj lf hlf hlv
        simp only [deepDiff_of_not_obj hlvflat]
        by_cases heq : lv = rv
        · subst heq
          have hc : (isEmptyObject (Val.obj .nil)
              && (isEmptyObject lv || !isEmptyObject lv)) = true := by
            cases lv with
            | obj l => exact absurd hlvflat (by simp [isObject])
            | undef => rfl
            | null => rfl
            | bool b => rfl
            | num n => rfl
            | str s => rfl
          simp only [eq_self_iff_true, if_true]
          rw [if_pos hc, ih hflatr hndr k]
          simp [Fields.lookup, if_neg hk]
        · have hc : (isEmptyObject rv && (isEmptyObject lv || !isEmptyObject rv)) = false := by
            cases rv with
            | obj l => exact absurd hflat1 (by simp [isObject])
            | undef => rfl
            | null => rfl
            | bool b => rfl
            | num n => rfl
            | str s => rfl
          rw [if_neg heq, if_neg (by rw [hc]; simp)]
          simp only [Fields.lookup, if_neg hk]
          rw [ih hflatr hndr k]

theorem lookup_replaceKey_of_hasKey {k : String} {v : Val} :
    ∀ l : Fields, l.hasKey k = true → (l.replaceKey k v).lookup k = some v := by
  intro l
  induction l using Fields.inductionOn with
  | hnil => intro h; simp [Fields.hasKey, Fields.lookup] at h
  | hcons k1 v1 rest ih =>
    intro h
    rw [Fields.replaceKey]
    by_cases hk : k1 = k
    · simp [hk, Fields.lookup]
    · simp only [if_neg hk, Fields.lookup, if_neg hk]
      apply ih
      simp only [Fields.hasKey, Fields.lookup, if_neg hk] at h ⊢
      exact h

theorem lookup_replaceKey_ne {k k1 : String} {v : Val} (hk : k1 ≠ k) :
    ∀ l : Fields, (l.replaceKey k v).lookup k1 = l.lookup k1 := by
  intro l
  induction l using Fields.inductionOn with
  | hnil => rfl
  | hcons k2 v2 rest ih =>
    rw [Fields.replaceKey]
    by_cases h2 : k2 = k
    · have hne : ¬ k2 = k1 := by
        rw [h2]
        intro hh
        exact hk (Eq.symm hh)
      rw [if_pos h2]
      simp only [Fields.lookup, if_neg hne]
      exact ih
    · simp only [if_neg h2, Fields.lookup, ih]

theorem lookup_setKey_self {k : String} {v : Val} (l : Fields) :
    (setKey l k v).lookup k = some v := by
  rw [setKey]
  by_cases h : l.hasKey k
  · rw [if_pos h]
    exact lookup_replaceKey_of_hasKey l h
  · rw [if_neg h]
    have hnone : l.lookup k = none := by
      cases hl : l.lookup k with
      | none => rfl
      | some w => exact absurd (by simp [Fields.hasKey, hl]) h
    rw [lookup_append_of_none l _ hnone]
    simp [Fields.lookup]

theorem lookup_setKey_ne {k k1 : String} {v : Val} (hk : k1 ≠ k) (l : Fields) :
    (setKey l k v).lookup k1 = l.lookup k1 := by
  rw [setKey]
  by_cases h : l.hasKey k
  · rw [if_pos h]
    exact lookup_replaceKey_ne hk l
  · rw [if_neg h]
    cases hl : l.lookup k1 with
    | some w => rw [lookup_append_of_some l _ hl]
    | none =>
      rw [lookup_append_of_none l _ hl]
      have hne : ¬ k = k1 := fun hh => hk (Eq.symm hh)
      rw [Fields.lookup, if_neg hne]
      rfl

theorem spreadFields_of_disjoint :
    ∀ l : Fields, ∀ base : Fields, l.keys.Nodup →
      (∀ k, k ∈ l.keys → base.lookup k = none) →
      spreadFields base l = base.append l := by
  intro l
  induction l using Fields.inductionOn with
  | hnil => intro base _ _; rw [spreadFields, Fields.append_nil]
  | hcons k v rest ih =>
    intro base hnd hdisj
    rw [spreadFields]
    have hbk : base.lookup k = none := hdisj k (by simp [Fields.keys])
    have hset : setKey base k v = base.append (.cons k v .nil) := by
      rw [setKey, if_neg]
      simp [Fields.hasKey, hbk]
    rw [hset]
    have hndr : rest.keys.Nodup := by
      simp only [Fields.keys, List.nodup_cons] at hnd
      exact hnd.2
    have hknr : k ∉ rest.keys := by
      simp only [Fields.keys, List.nodup_cons] at hnd
      exact hnd.1
    rw [ih (base.append (.cons k v .nil)) hndr]
    · rw [Fields.append_assoc]
      rfl
    · intro k1 hk1
      have hne : k ≠ k1 := fun h => hknr (h ▸ hk1)
      rw [lookup_append_of_none base _ (hdisj k1 (by simp [Fields.keys, hk1]))]
      simp [Fields.lookup, hne]

theorem hydrateGo_length : ∀ (l : List HistoryEntry) (pivot : Fields),
    (hydrateGo pivot l).length = l.length := by
  intro l
  induction l with
  | nil => intro pivot; rfl
  | cons e rest ih => intro pivot; simp [hydrateGo, ih]

theorem hydrateGo_eq_scanl_tail : ∀ (l : List HistoryEntry) (pivot : Fields),
    hydrateGo pivot l = (List.scanl hydrateStep pivot l).tail := by
  intro l
  induction l with
  | nil => intro pivot; rfl
  | cons e rest ih =>
    intro pivot
    rw [List.scanl_cons, hydrateGo, ih (hydrateStep pivot e)]
    cases rest with
    | nil => rfl
    | cons e2 rest2 => rw [List.scanl_cons]; rfl

theorem hydrateGo_getElem :
    ∀ (l : List HistoryEntry) (pivot : Fields) (i : Nat) (out : Fields)
      (entry : HistoryEntry),
      (hydrateGo pivot l)[i]? = some out → l[i]? = some entry →
      ∃ p : Fields, out = hydrateStep p entry := by
  intro l
  induction l with
  | nil => intro pivot i out entry h _; simp [hydrateGo] at h
  | cons e rest ih =>
    intro pivot i out entry hout hentry
    cases i with
    | zero =>
      simp only [hydrateGo, List.getElem?_cons_zero, Option.some_inj] at hout hentry
      exact ⟨pivot, by rw [← hout, ← hentry]⟩
    | succ j =>
      simp only [hydrateGo, List.getElem?_cons_succ] at hout hentry
      exact ih (hydrateStep pivot e) j out entry hout hentry

theorem hydrateStep_overrides (p : Fields) (e : HistoryEntry) :
    (hydrateStep p e).lookup idKey = some e.id
    ∧ (hydrateStep p e).lookup historyDetailsKey = some e.historyDetails
    ∧ (hydrateStep p e).lookup createdAtKey = some e.createdAt := by
  refine ⟨?_, ?_, ?_⟩
  · rw [hydrateStep, lookup_setKey_ne (by decide), lookup_setKey_ne (by decide)]
    exact lookup_setKey_self _
  · rw [hydrateStep, lookup_setKey_ne (by decide)]
    exact lookup_setKey_self _
  · rw [hydrateStep]
    exact lookup_setKey_self _

theorem char_toLower_idem (c : Char) : c.toLower.toLower = c.toLower := by
  simp only [Char.toLower]
  split
  · next h =>
    have hv : Nat.isValidChar (c.toNat + 32) := by
      left
      omega
    have ht : (Char.ofNat (c.toNat + 32)).toNat = c.toNat + 32 := by
      simp only [Char.ofNat, hv, dif_pos]
      rfl
    rw [if_neg]
    rw [ht]
    omega
  · rfl

theorem lowerString_idem (s : String) : lowerString (lowerString s) = lowerString s := by
  simp only [lowerString, List.map_map]
  congr 1
  apply List.map_congr_left
  intro c _
  exact char_toLower_idem c

/-! ### Claim theorems -/

/-- C3: for every update whose incoming state (after the source defaults
an absent entity to the empty object) is structurally equal to its
previous state, the computed diff is the empty object and beforeUpdate
performs zero writes; beforeUpdate is a total function, so no error is
raised. -/
theorem beforeUpdate_noop_on_equal_states (event : UpdateEvent)
    (h : event.entity.getD (.obj .nil) = event.databaseEntity.getD (.obj .nil)) :
    deepDiff (event.entity.getD (.obj .nil)) (event.databaseEntity.getD (.obj .nil))
        = .obj .nil
    ∧ beforeUpdate event = [] := by
  have hd : deepDiff (event.entity.getD (.obj .nil))
      (event.databaseEntity.getD (.obj .nil)) = .obj .nil := by
    rw [deepDiff.eq_def, if_pos h]
  refine ⟨hd, ?_⟩
  simp [beforeUpdate, hd, isEmptyObj]

/-- C3 witness: a concrete no-op update writes nothing. -/
theorem beforeUpdate_noop_on_equal_states_witness :
    deepDiff ((exEventEq.entity).getD (.obj .nil))
        ((exEventEq.databaseEntity).getD (.obj .nil)) = .obj .nil
    ∧ beforeUpdate exEventEq = [] :=
  beforeUpdate_noop_on_equal_states exEventEq rfl

/-- C4: for every update whose computed diff is a non-empty object,
beforeUpdate persists exactly one History Entry, whose origin is the id
of the previous record, whose diff is the computed mapping, and whose
historyDetails is the annotation looked up in the operation data (none
when none was supplied). -/
theorem beforeUpdate_single_write_on_diff (event : UpdateEvent) (prev : Fields) (i : Val)
    (hprev : event.databaseEntity = some (.obj prev))
    (hid : prev.lookup idKey = some i)
    (hne : isEmptyObj (deepDiff (event.entity.getD (.obj .nil)) (.obj prev)) = false) :
    beforeUpdate event =
      [{ origin := some i
       , diff := deepDiff (event.entity.getD (.obj .nil)) (.obj prev)
       , historyDetails := event.queryRunnerData.lookup historyDetailsKey }] := by
  simp only [beforeUpdate, hprev, Option.getD_some, hne, Bool.false_eq_true, if_false]
  simp [Val.getProp, hid]

/-- C4 witness: a concrete qualifying update persists exactly the
expected single entry. -/
theorem beforeUpdate_single_write_on_diff_witness :
    beforeUpdate exEventC4 =
      [{ origin := some (.num 1)
       , diff := deepDiff ((exEventC4.entity).getD (.obj .nil)) (.obj exPrevIdFields)
       , historyDetails := (exEventC4.queryRunnerData).lookup historyDetailsKey }] :=
  beforeUpdate_single_write_on_diff exEventC4 exPrevIdFields (.num 1) rfl (by decide)
    (by decide)

/-- C7: for every update whose incoming entity is absent or the empty
object, the diff is computed against the empty structure and equals the
whole previous state, so when the previous state is non-empty a History
Entry containing all of its fields is written. -/
theorem beforeUpdate_empty_incoming_full_diff (event : UpdateEvent) (prev : Fields)
    (hinc : event.entity = none ∨ event.entity = some (.obj .nil))
    (hprev : event.databaseEntity = some (.obj prev)) :
    deepDiff (.obj .nil) (.obj prev) = .obj prev
    ∧ (prev ≠ .nil →
        beforeUpdate event =
          [{ origin := prev.lookup idKey
           , diff := .obj prev
           , historyDetails := event.queryRunnerData.lookup historyDetailsKey }]) := by
  have hdd : deepDiff (.obj .nil) (.obj prev) = .obj prev := by
    by_cases hp : prev = Fields.nil
    · subst hp
      rw [deepDiff.eq_def, if_pos rfl]
    · have hobj : Val.obj Fields.nil ≠ Val.obj prev := by
        intro hcontr
        injection hcontr with hcontr2
        exact hp (Eq.symm hcontr2)
      rw [deepDiff.eq_def, if_neg hobj]
      show Val.obj ((deletedFields prev .nil).append (updatedFields .nil prev)) = Val.obj prev
      rw [updatedFields_nil_left]
      rfl
  refine ⟨hdd, fun hp => ?_⟩
  have hentity : event.entity.getD (.obj .nil) = .obj .nil := by
    rcases hinc with h | h <;> rw [h] <;> rfl
  have hne : isEmptyObj (Val.obj prev) = false := by
    cases prev with
    | nil => exact absurd rfl hp
    | cons a b c => rfl
  simp only [beforeUpdate, hentity, hprev, Option.getD_some, hdd, hne,
    Bool.false_eq_true, if_false]
  simp [Val.getProp]

/-- C7 witness: a concrete update with an absent incoming entity and a
non-empty previous state records the whole previous state as the diff. -/
theorem beforeUpdate_empty_incoming_full_diff_witness :
    deepDiff (.obj .nil) (.obj exPrevIdFields) = .obj exPrevIdFields
    ∧ beforeUpdate exEventC7 =
        [{ origin := exPrevIdFields.lookup idKey
         , diff := .obj exPrevIdFields
         , historyDetails := (exEventC7.queryRunnerData).lookup historyDetailsKey }] :=
  ⟨(beforeUpdate_empty_incoming_full_diff exEventC7 exPrevIdFields (Or.inl rfl) rfl).1,
   (beforeUpdate_empty_incoming_full_diff exEventC7 exPrevIdFields (Or.inl rfl) rfl).2
     (by decide)⟩

/-- C1 counterexample: for previous equal to the object with a mapped
to 1 and b mapped to 2 and incoming equal to the object with a mapped
to 1 and b mapped to 3, the source calls deepDiff with the incoming
state first and the previous state second, so the recorded diff maps b
to the previous value 2 and is not the object mapping b to the incoming
value 3 that the claim requires. -/
theorem beforeUpdate_records_previous_not_incoming_cex :
    beforeUpdate exEventC1 =
      [{ origin := none
       , diff := .obj (.cons bKey (.num 2) .nil)
       , historyDetails := none }]
    ∧ Val.obj (.cons bKey (.num 2) .nil) ≠ Val.obj (.cons bKey (.num 3) .nil) := by
  constructor
  · decide
  · decide

/-- C1 (amended): for every update of a tracked record with flat
previous and incoming states (no nested object values, previous keys
duplicate free) that differ at some key, beforeUpdate records exactly
one entry whose diff contains exactly the keys whose values differ,
mapping each key present in the previous state to its previous value
and each key absent from the previous state to the undefined deletion
marker; in particular, for previous mapping a to 1 and b to 2 and
incoming mapping a to 1 and b to 3, the recorded diff equals the object
mapping b to 2. -/
theorem beforeUpdate_diff_keys_and_values (event : UpdateEvent)
    (inc prev : Fields) (k : String)
    (hinc : event.entity = some (.obj inc))
    (hprev : event.databaseEntity = some (.obj prev))
    (hfi : inc.Flat = true) (hfp : prev.Flat = true)
    (hnd : prev.keys.Nodup)
    (hne : ∃ k0, inc.lookup k0 ≠ prev.lookup k0) :
    beforeUpdate event =
      [{ origin := prev.lookup idKey
       , diff := deepDiff (.obj inc) (.obj prev)
       , historyDetails := event.queryRunnerData.lookup historyDetailsKey }]
    ∧ (deepDiff (.obj inc) (.obj prev)).fields.lookup k =
        (if inc.lookup k = prev.lookup k then none
         else some ((prev.lookup k).getD .undef)) := by
  have hobj : Val.obj inc ≠ Val.obj prev := by
    intro hcontr
    obtain ⟨k0, hk0⟩ := hne
    apply hk0
    injection hcontr with hcontr2
    rw [hcontr2]
  have hdd : deepDiff (.obj inc) (.obj prev)
      = .obj ((deletedFields prev inc).append (updatedFields inc prev)) := by
    rw [deepDiff.eq_def, if_neg hobj]
  have hlook : ∀ k1 : String,
      ((deletedFields prev inc).append (updatedFields inc prev)).lookup k1 =
        (if inc.lookup k1 = prev.lookup k1 then none
         else some ((prev.lookup k1).getD .undef)) := by
    intro k1
    cases hi : inc.lookup k1 with
    | none =>
      have hdel : (deletedFields prev inc).lookup k1 = none := by
        rw [lookup_deletedFields]
        simp [hi]
      rw [lookup_append_of_none _ _ hdel, lookup_updatedFields_flat hfi prev hfp hnd k1]
      cases hp : prev.lookup k1 with
      | none => simp
      | some pv => simp [hi, Option.getD]
    | some iv =>
      cases hp : prev.lookup k1 with
      | none =>
        have hdel : (deletedFields prev inc).lookup k1 = some Val.undef := by
          rw [lookup_deletedFields]
          simp [hi, hp]
        rw [lookup_append_of_some _ _ hdel]
        simp [hi, hp]
      | some pv =>
        have hdel : (deletedFields prev inc).lookup k1 = none := by
          rw [lookup_deletedFields]
          simp [hp]
        rw [lookup_append_of_none _ _ hdel, lookup_updatedFields_flat hfi prev hfp hnd k1]
        rw [hp, hi]
        by_cases heq : iv = pv
        · simp [heq]
        · simp only [if_neg heq, Option.getD_some]
          have hne2 : ¬ (some iv = some pv) := by
            intro hcontr
            exact heq (Option.some_inj.mp hcontr)
          rw [if_neg hne2]
  have hfieldsne : (deletedFields prev inc).append (updatedFields inc prev) ≠ .nil := by
    obtain ⟨k0, hk0⟩ := hne
    intro hcontr
    have := hlook k0
    rw [hcontr] at this
    simp only [Fields.lookup, if_neg hk0] at this
    exact Option.noConfusion this
  have hempty : isEmptyObj (deepDiff (.obj inc) (.obj prev)) = false := by
    rw [hdd]
    cases hcase : (deletedFields prev inc).append (updatedFields inc prev) with
    | nil => exact absurd hcase hfieldsne
    | cons x y z => rfl
  constructor
  · simp only [beforeUpdate, hinc, hprev, Option.getD_some, hempty,
      Bool.false_eq_true, if_false]
    simp [Val.getProp]
  · rw [hdd]
    exact hlook k

/-- C1 witness: the amended theorem applied to the spec example, where
the recorded diff maps b to the previous value 2. -/
theorem beforeUpdate_diff_keys_and_values_witness :
    (beforeUpdate exEventC1 =
      [{ origin := exPreviousFields.lookup idKey
       , diff := deepDiff (.obj exIncomingFields) (.obj exPreviousFields)
       , historyDetails := (exEventC1.queryRunnerData).lookup historyDetailsKey }]
    ∧ (deepDiff (.obj exIncomingFields) (.obj exPreviousFields)).fields.lookup bKey =
        (if exIncomingFields.lookup bKey = exPreviousFields.lookup bKey then none
         else some ((exPreviousFields.lookup bKey).getD .undef)))
    ∧ (deepDiff (.obj exIncomingFields) (.obj exPreviousFields)).fields.lookup bKey
        = some (.num 2) :=
  ⟨beforeUpdate_diff_keys_and_values exEventC1 exIncomingFields exPreviousFields bKey
      rfl rfl (by decide) (by decide) (by decide) ⟨bKey, by decide⟩,
   by decide⟩

/-- C2 counterexample: when current itself owns an originId field,
Object.assign lets the field of current win, so the pivot does not
start with originId equal to current.id: for current mapping id to 1
and originId to 99, the first hydrate output carries originId 99, not
the value 1 required by the claim. -/
theorem hydrate_originId_shadowed_cex :
    Fields.lookup originIdKey (List.headD (hydrate exShadowCurrent [exEntry1]) .nil)
      = some (.num 99)
    ∧ Fields.lookup originIdKey (List.headD (hydrate exShadowCurrent [exEntry1]) .nil)
      ≠ some ((exShadowCurrent.lookup idKey).getD .undef) := by
  constructor
  · decide
  · decide

/-- C2 (amended): for every current record that does not itself own an
originId field (its keys being duplicate free), hydrate is the stated
fold: the initial pivot is current augmented with originId mapped to
current.id, each history entry in order produces the next pivot by
overlaying its diff and overriding id, historyDetails and createdAt,
and exactly that pivot sequence is returned, so the output length
equals the history length and an empty history yields an empty
output. -/
theorem hydrate_fold_structure (current : Fields) (history : List HistoryEntry)
    (hno : current.lookup originIdKey = none) (hnd : current.keys.Nodup) :
    hydrate current history =
      (List.scanl hydrateStep
        (.cons originIdKey ((current.lookup idKey).getD .undef) current) history).tail
    ∧ (hydrate current history).length = history.length
    ∧ hydrate current [] = [] := by
  have hpiv : spreadFields
      (.cons originIdKey ((current.lookup idKey).getD .undef) .nil) current
        = .cons originIdKey ((current.lookup idKey).getD .undef) current := by
    rw [spreadFields_of_disjoint current _ hnd]
    · rfl
    · intro k1 hk1
      have hne : ¬ originIdKey = k1 := by
        intro hcontr
        rw [lookup_eq_none_iff_not_mem_keys] at hno
        exact hno (hcontr ▸ hk1)
      simp [Fields.lookup, hne]
  refine ⟨?_, ?_, rfl⟩
  · show hydrateGo _ history = _
    rw [hpiv, hydrateGo_eq_scanl_tail]
  · show (hydrateGo _ history).length = _
    rw [hydrateGo_length]

/-- C2 witness: the amended theorem applied to a concrete current
record and two history entries. -/
theorem hydrate_fold_structure_witness :
    hydrate exCurrent [exEntry1, exEntry2] =
      (List.scanl hydrateStep
        (.cons originIdKey ((exCurrent.lookup idKey).getD .undef) exCurrent)
        [exEntry1, exEntry2]).tail
    ∧ (hydrate exCurrent [exEntry1, exEntry2]).length = [exEntry1, exEntry2].length
    ∧ hydrate exCurrent [] = [] :=
  hydrate_fold_structure exCurrent [exEntry1, exEntry2] (by decide) (by decide)

/-- C6: hydrate is a deterministic pure function of its two arguments:
two calls on equal inputs return equal outputs (the embedding is a
total function on immutable values, matching the side-effect free
source, which only rebinds a local variable and builds fresh objects). -/
theorem hydrate_deterministic (c1 c2 : Fields) (h1 h2 : List HistoryEntry)
    (hc : c1 = c2) (hh : h1 = h2) : hydrate c1 h1 = hydrate c2 h2 := by
  rw [hc, hh]

/-- C6 witness: two calls of hydrate on the same concrete inputs agree. -/
theorem hydrate_deterministic_witness :
    hydrate exCurrent [exEntry1, exEntry2] = hydrate exCurrent [exEntry1, exEntry2] :=
  hydrate_deterministic exCurrent exCurrent [exEntry1, exEntry2] [exEntry1, exEntry2]
    rfl rfl

/-- C9: in every output element of hydrate, the id, historyDetails and
createdAt fields equal the matching history entry values, even when the
entry diff itself holds keys of those names: the entry fields are
written after the diff is spread and take precedence. -/
theorem hydrate_entry_fields_override (current : Fields) (history : List HistoryEntry)
    (i : Nat) (out : Fields) (entry : HistoryEntry)
    (hout : (hydrate current history)[i]? = some out)
    (hentry : history[i]? = some entry) :
    out.lookup idKey = some entry.id
    ∧ out.lookup historyDetailsKey = some entry.historyDetails
    ∧ out.lookup createdAtKey = some entry.createdAt := by
  have hout2 : (hydrateGo
      (spreadFields (.cons originIdKey ((current.lookup idKey).getD .undef) .nil) current)
      history)[i]? = some out := hout
  obtain ⟨p, hp⟩ := hydrateGo_getElem history _ i out entry hout2 hentry
  rw [hp]
  exact hydrateStep_overrides p entry

/-- C9 witness: with a diff holding id, historyDetails and createdAt
keys, the output still carries the entry values of those fields. -/
theorem hydrate_entry_fields_override_witness :
    exHydrateOut.lookup idKey = some exEntry3.id
    ∧ exHydrateOut.lookup historyDetailsKey = some exEntry3.historyDetails
    ∧ exHydrateOut.lookup createdAtKey = some exEntry3.createdAt :=
  hydrate_entry_fields_override exCurrent [exEntry3] 0 exHydrateOut exEntry3
    (by decide) (by decide)

/-- C5 counterexample: the class named USER is never registered (the
registry is built by registering only the distinct class named User),
yet getHistoryRepository on USER does not raise the unregistered-type
error: the lower-cased name collides with the stored entry, and the
call silently returns the repository of the User history entity. -/
theorem getHistoryRepository_collision_cex :
    getHistoryRepository exRegistry (.byClass upperUserClass)
      = .ok (createHistoryEntityAndSubscriber userClass).entity
    ∧ upperUserClass ≠ userClass
    ∧ getHistoryRepository exRegistry (.byClass upperUserClass)
      ≠ .error unregisteredMsg := by
  refine ⟨by decide, by decide, by decide⟩

/-- C5 (amended): whenever no registered entry stores the lower-cased
name of the requested type, getHistoryRepository (called by name or by
type reference) returns the unregistered-type error and nothing else;
a never-registered type whose lower-cased name collides with a
registered one is instead answered with that entry. -/
theorem getHistoryRepository_error_when_name_unregistered
    (entries : List Entry) (t : EntityRef)
    (h : ∀ e ∈ entries, e.name ≠ lowerString t.refName) :
    getHistoryRepository entries t = .error unregisteredMsg := by
  have hfind : entries.find? (fun e => e.name == lowerString t.refName) = none := by
    rw [List.find?_eq_none]
    intro x hx
    simp only [beq_iff_eq]
    exact h x hx
  simp [getHistoryRepository, hfind]

/-- C5 witness: requesting the never-registered name Ghost on the
registry holding only User errors out. -/
theorem getHistoryRepository_error_when_name_unregistered_witness :
    getHistoryRepository exRegistry (.byName ghostName) = .error unregisteredMsg :=
  getHistoryRepository_error_when_name_unregistered exRegistry (.byName ghostName)
    (by decide)

/-- C8: registration stores the lower-cased class name, and lookup
lower-cases its argument, so any name differing from the class name
only in letter case resolves exactly as the lower-cased name does, and
a type-reference lookup agrees as well. -/
theorem getHistoryRepository_case_insensitive (entries : List Entry)
    (c : EntityClass) (s : String)
    (hcase : lowerString s = lowerString c.name) :
    (createHistoryEntityAndSubscriber c).name = lowerString c.name
    ∧ getHistoryRepository entries (.byName s)
        = getHistoryRepository entries (.byName (lowerString c.name))
    ∧ getHistoryRepository entries (.byClass c)
        = getHistoryRepository entries (.byName (lowerString c.name)) := by
  refine ⟨rfl, ?_, ?_⟩
  · simp only [getHistoryRepository, EntityRef.refName]
    rw [hcase, lowerString_idem]
  · simp only [getHistoryRepository, EntityRef.refName]
    rw [lowerString_idem]

/-- C8 witness: on the registry holding User, the mixed-case name uSeR
resolves like the lower-cased name user, and so does the class itself. -/
theorem getHistoryRepository_case_insensitive_witness :
    (createHistoryEntityAndSubscriber userClass).name = lowerString userName
    ∧ getHistoryRepository exRegistry (.byName mixedUserName)
        = getHistoryRepository exRegistry (.byName (lowerString userName))
    ∧ getHistoryRepository exRegistry (.byClass userClass)
        = getHistoryRepository exRegistry (.byName (lowerString userName)) :=
  getHistoryRepository_case_insensitive exRegistry userClass mixedUserName (by decide)

/-- C10: the TrackHistory decorator and the trackHistory function are
equivalent registrations: both append the same generated entry to the
registry (so getEntities, getSubscribers and getHistoryRepository agree
on the resulting states), and the decorator additionally returns its
target unchanged. -/
theorem TrackHistory_trackHistory_equiv (c : EntityClass) (entries : List Entry)
    (r : EntityRef) :
    TrackHistory c entries = (trackHistory c entries, c)
    ∧ (TrackHistory c entries).2 = c
    ∧ getEntities (TrackHistory c entries).1 = getEntities (trackHistory c entries)
    ∧ getSubscribers (TrackHistory c entries).1 = getSubscribers (trackHistory c entries)
    ∧ getHistoryRepository (TrackHistory c entries).1 r
        = getHistoryRepository (trackHistory c entries) r :=
  ⟨rfl, rfl, rfl, rfl, rfl⟩

end TypeormSimpleHistory
